import Mathlib

/-!
Verification of the retrieval core of `src/backend/agents.py`
(class `CompetitiveProgrammingSearch`): the weighted embedding builder
`_create_weighted_embeddings`, the similarity ranker
`fetch_related_approaches` and the search facade `find_similar_approaches`.

The Python code is shallowly embedded: graph nodes become structures,
nullable nodes become `Option`, embedding vectors become `List Int`,
the embedding model becomes an explicit function argument (which may fail,
modelling an embedding-provider failure), Python exceptions become an
explicit error component, and the `self.approach_embeddings` field becomes
an explicit state value.  Python's stable in-place sort
(`list.sort(key=..., reverse=True)`) is modelled by the stable
`List.insertionSort` with the reversed order, whose sortedness,
permutation and stability properties are proved below.
-/

/-- Errors a `search` call can surface: a Python `KeyError` (missing node
property), a Neo4j connection/query failure, and an embedding-provider
failure. -/
inductive PyError where
  | keyError : PyError
  | storeUnavailable : PyError
  | embeddingFailure : PyError
deriving DecidableEq

/-- An `Approach` graph node.  `description` is `none` when the node lacks
the `description` property (reading it then raises `KeyError`). -/
structure Approach where
  description : Option String
deriving DecidableEq

/-- A `Code` graph node with its `content` property. -/
structure Code where
  content : String
deriving DecidableEq

/-- A `Question` graph node with its `text` property. -/
structure Question where
  text : String
deriving DecidableEq

/-- One denormalized row returned by `_fetch_questions_by_subtopics`:
the question plus the collected approach/code lists of the three
relationship categories (entries are `Option`s: a collected slot can be
null).  Test cases and constraints are collected too but never read by
the builder. -/
structure QuestionBundle where
  q : Question
  testCases : List String
  constraints : List String
  approachedApproaches : List (Option Approach)
  approachedCodes : List (Option Code)
  optimizedApproaches : List (Option Approach)
  optimizedCodes : List (Option Code)
  improvedApproaches : List (Option Approach)
  improvedCodes : List (Option Code)
deriving DecidableEq

/-- One entry of `self.approach_embeddings`. -/
structure EmbeddingRecord where
  question_id : String
  approach_type : String
  embedding : List Int
  approach_node : Approach
  code_node : Option Code
deriving DecidableEq

/-- One entry of the ranker's `relevant_approaches` list:
`{'approach_data': ..., 'similarity': ...}`. -/
structure ScoredApproach where
  approach_data : EmbeddingRecord
  similarity : Int
deriving DecidableEq

/-- One entry of the result list of `find_similar_approaches`. -/
structure RankedResult where
  question_id : String
  approach_node : Approach
  code_node : Option Code
  similarity_score : Int
deriving DecidableEq

/-- `np.dot` on the integer model of embedding vectors. -/
def dotProduct (v w : List Int) : Int :=
  (List.zipWith (fun a b => a * b) v w).sum

/-- `approach_types is None or approach_data['approach_type'] in approach_types`. -/
def typeAllowed (approach_types : Option (List String)) (ty : String) : Bool :=
  match approach_types with
  | none => true
  | some ts => ts.contains ty

/-- The scored-and-filtered list the ranker builds before sorting, in the
input (builder insertion) order. -/
def scoredList (query_embedding : List Int) (records : List EmbeddingRecord)
    (approach_types : Option (List String)) : List ScoredApproach :=
  records.filterMap fun approach_data =>
    if typeAllowed approach_types approach_data.approach_type then
      some ⟨approach_data, dotProduct query_embedding approach_data.embedding⟩
    else
      none

/-- The descending-by-similarity order used by
`sort(key=lambda item: item['similarity'], reverse=True)`. -/
def simGE (a b : ScoredApproach) : Prop :=
  b.similarity ≤ a.similarity

instance : DecidableRel simGE :=
  fun a b => inferInstanceAs (Decidable (b.similarity ≤ a.similarity))

instance : IsTotal ScoredApproach simGE :=
  ⟨fun a b => (le_total b.similarity a.similarity).imp id id⟩

instance : IsTrans ScoredApproach simGE :=
  ⟨fun _ _ _ h1 h2 => le_trans h2 h1⟩

/-- The fully sorted scored list (Python's stable in-place sort, before
the `[:top_k]` slice). -/
def rankedAll (query_embedding : List Int) (records : List EmbeddingRecord)
    (approach_types : Option (List String)) : List ScoredApproach :=
  List.insertionSort simGE (scoredList query_embedding records approach_types)

/-- Python's slice `l[:k]` for an `int` bound `k` (negative bounds count
from the end). -/
def pySliceTo (k : Int) (l : List α) : List α :=
  l.take (if 0 ≤ k then k.toNat else (l.length + k).toNat)

/-- `CompetitiveProgrammingSearch.fetch_related_approaches`. -/
def fetch_related_approaches (query_embedding : List Int)
    (approach_embeddings : List EmbeddingRecord) (top_k : Int)
    (approach_types : Option (List String)) : List ScoredApproach :=
  if approach_embeddings.isEmpty then []
  else pySliceTo top_k (rankedAll query_embedding approach_embeddings approach_types)

/-- An embedding provider `self.model.encode([text])[0]`, which may fail. -/
def Encoder : Type :=
  String → Except PyError (List Int)

/-- An embedding provider built from a total encoding function (one that
never fails). -/
def okEnc (f : String → List Int) : Encoder :=
  fun s => Except.ok (f s)

/-- Outcome of (part of) a `_create_weighted_embeddings` run: the records
appended to `self.approach_embeddings`, the texts passed to the embedding
provider (in call order), and the exception raised, if any.  When `err`
is `some e`, `records` and `texts` hold the work done before the raise. -/
structure BuildOut where
  records : List EmbeddingRecord
  texts : List String
  err : Option PyError
deriving DecidableEq

/-- `" ".join(filter(None, approach_components))`: empty strings are
dropped, the rest joined by a single space. -/
def joinNonEmpty (components : List String) : String :=
  String.intercalate " " (components.filter fun s => s != "")

/-- One `for approach, code in zip(...)` loop body of
`_create_weighted_embeddings`, iterated over the zipped pair list:
a null approach is skipped (`if approach:`), a missing `description`
property raises `KeyError`, otherwise the input text is built, encoded,
and the record appended. -/
def processApproachList (enc : Encoder) (qid ty : String) :
    List (Option Approach × Option Code) → BuildOut
  | [] => ⟨[], [], none⟩
  | (approach, code) :: rest =>
    match approach with
    | none => processApproachList enc qid ty rest
    | some ap =>
      match ap.description with
      | none => ⟨[], [], some PyError.keyError⟩
      | some d =>
        let approach_components := d :: (match code with
          | some cd => [cd.content]
          | none => [])
        let approach_text := joinNonEmpty approach_components
        match enc approach_text with
        | Except.error e => ⟨[], [approach_text], some e⟩
        | Except.ok v =>
          let tail := processApproachList enc qid ty rest
          ⟨⟨qid, ty, v, ap, code⟩ :: tail.records,
           approach_text :: tail.texts, tail.err⟩

/-- Sequential composition of two build phases: the second runs only when
the first did not raise. -/
def thenBuild (r1 : BuildOut) (r2 : Unit → BuildOut) : BuildOut :=
  match r1.err with
  | some e => ⟨r1.records, r1.texts, some e⟩
  | none =>
    let r := r2 ()
    ⟨r1.records ++ r.records, r1.texts ++ r.texts, r.err⟩

/-- The three category loops of `_create_weighted_embeddings` for one
bundle, in source order: approached, then optimized, then improved. -/
def processBundle (enc : Encoder) (b : QuestionBundle) : BuildOut :=
  thenBuild
    (processApproachList enc b.q.text "approached"
      (b.approachedApproaches.zip b.approachedCodes))
    (fun _ => thenBuild
      (processApproachList enc b.q.text "optimized"
        (b.optimizedApproaches.zip b.optimizedCodes))
      (fun _ => processApproachList enc b.q.text "improved"
        (b.improvedApproaches.zip b.improvedCodes)))

/-- `_create_weighted_embeddings(questions_data, code_analysis)` as a pure
function of the fetched bundles: the value left in
`self.approach_embeddings` (it is reset to `[]` first, so prior state is
irrelevant), the provider calls made, and the exception raised, if any.
`code_analysis` is accepted and ignored, as in the source. -/
def create_weighted_embeddings (enc : Encoder)
    (questions_data : List QuestionBundle) (code_analysis : String) : BuildOut :=
  match questions_data with
  | [] => ⟨[], [], none⟩
  | b :: rest =>
    thenBuild (processBundle enc b)
      (fun _ => create_weighted_embeddings enc rest code_analysis)

/-- The mutable state of a `CompetitiveProgrammingSearch` instance that the
retrieval core reads or writes: the `approach_embeddings` field
(initialized to `[]` in `__init__`). -/
structure CompetitiveProgrammingSearch where
  approach_embeddings : List EmbeddingRecord
deriving DecidableEq

set_option linter.unusedVariables false in
/-- `_create_weighted_embeddings` as the method call it is in the source:
it receives the instance state and returns the new state (the method
itself returns `None`; a raised exception is reported alongside).  The
incoming state is deliberately unread: line one of the method resets
`self.approach_embeddings` to the empty list. -/
def create_weighted_embeddings_method (enc : Encoder)
    (self : CompetitiveProgrammingSearch) (questions_data : List QuestionBundle)
    (code_analysis : String) : CompetitiveProgrammingSearch × Option PyError :=
  let r := create_weighted_embeddings enc questions_data code_analysis
  (⟨r.records⟩, r.err)

/-- `find_similar_approaches(query_text, code_analysis, subtopics, k)`.
The graph fetch is an explicit argument (`_fetch_questions_by_subtopics`
runs an external Neo4j query): it maps the subtopics to either the bundle
list or a `storeUnavailable` failure.  The result pairs the returned value
(or the propagated exception) with the list of texts passed to the
embedding provider. -/
def find_similar_approaches (enc : Encoder)
    (fetch : List String → Except PyError (List QuestionBundle))
    (query_text code_analysis : String) (subtopics : List String) (k : Int) :
    Except PyError (List RankedResult) × List String :=
  match fetch subtopics with
  | Except.error e => (Except.error e, [])
  | Except.ok questions_data =>
    if questions_data.isEmpty then (Except.ok [], [])
    else
      let built := create_weighted_embeddings enc questions_data code_analysis
      match built.err with
      | some e => (Except.error e, built.texts)
      | none =>
        match enc query_text with
        | Except.error e => (Except.error e, built.texts ++ [query_text])
        | Except.ok query_embedding =>
          let similar := fetch_related_approaches query_embedding built.records k none
          (Except.ok (similar.map fun item =>
            ⟨item.approach_data.question_id, item.approach_data.approach_node,
             item.approach_data.code_node, item.similarity⟩),
           built.texts ++ [query_text])

/-- Does this approach node have a non-empty `description` property? -/
def hasNonemptyDesc (ap : Approach) : Bool :=
  match ap.description with
  | some d => d != ""
  | none => false

/-- All approach nodes present in a zipped pair list carry a non-empty
description. -/
def pairsDescsOk (pairs : List (Option Approach × Option Code)) : Bool :=
  pairs.all fun p =>
    match p.1 with
    | some ap => hasNonemptyDesc ap
    | none => true

/-- All approach nodes of a bundle, across the three categories, carry a
non-empty description. -/
def bundleDescsOk (b : QuestionBundle) : Bool :=
  pairsDescsOk (b.approachedApproaches.zip b.approachedCodes) &&
  pairsDescsOk (b.optimizedApproaches.zip b.optimizedCodes) &&
  pairsDescsOk (b.improvedApproaches.zip b.improvedCodes)

/-- The embedding input text as the claim describes it (in its amended
form): the description joined to the paired code content by a single
separator when the code is present with non-empty content, and the
description alone when the code is absent or its content is empty. -/
def claimText (ap : Approach) (code : Option Code) : String :=
  match code with
  | some cd =>
    if cd.content = "" then ap.description.getD ""
    else ap.description.getD "" ++ " " ++ cd.content
  | none => ap.description.getD ""

/-- The single embedding record the claim predicts for one zipped
(approach, code) pair: none when the approach slot is null. -/
def claimRecord (f : String → List Int) (qid ty : String)
    (p : Option Approach × Option Code) : Option EmbeddingRecord :=
  p.1.map fun ap => ⟨qid, ty, f (claimText ap p.2), ap, p.2⟩

/-- The embedding input text the claim predicts for one zipped pair. -/
def claimTextOfPair (p : Option Approach × Option Code) : Option String :=
  p.1.map fun ap => claimText ap p.2

/-- The records the claim predicts for one bundle, category by category in
builder order. -/
def claimRecordsOfBundle (f : String → List Int) (b : QuestionBundle) :
    List EmbeddingRecord :=
  (b.approachedApproaches.zip b.approachedCodes).filterMap
      (claimRecord f b.q.text "approached") ++
    (b.optimizedApproaches.zip b.optimizedCodes).filterMap
      (claimRecord f b.q.text "optimized") ++
    (b.improvedApproaches.zip b.improvedCodes).filterMap
      (claimRecord f b.q.text "improved")

/-- The embedding input texts the claim predicts for one bundle. -/
def claimTextsOfBundle (b : QuestionBundle) : List String :=
  (b.approachedApproaches.zip b.approachedCodes).filterMap claimTextOfPair ++
    (b.optimizedApproaches.zip b.optimizedCodes).filterMap claimTextOfPair ++
    (b.improvedApproaches.zip b.improvedCodes).filterMap claimTextOfPair

/-- The records and texts the claim predicts for a whole bundle list. -/
def claimAll (f : String → List Int) :
    List QuestionBundle → List EmbeddingRecord × List String
  | [] => ([], [])
  | b :: rest =>
    let r := claimAll f rest
    (claimRecordsOfBundle f b ++ r.1, claimTextsOfBundle b ++ r.2)

/-- The embedding input text built for an approach whose description is
the empty string: the paired code content when the code node is present,
the empty string otherwise. -/
def emptyDescText (code : Option Code) : String :=
  match code with
  | some cd => cd.content
  | none => ""

lemma joinNonEmpty_single {d : String} (h : d ≠ "") : joinNonEmpty [d] = d := by
  have hf : List.filter (fun s => s != "") [d] = [d] := by simp [h]
  rw [joinNonEmpty, hf]
  rfl

lemma joinNonEmpty_pair {d c : String} (h : d ≠ "") :
    joinNonEmpty [d, c] = if c = "" then d else d ++ " " ++ c := by
  by_cases hc : c = ""
  · subst hc
    have hf : List.filter (fun s => s != "") [d, ""] = [d] := by simp [h]
    rw [joinNonEmpty, hf, if_pos rfl]
    rfl
  · have hf : List.filter (fun s => s != "") [d, c] = [d, c] := by simp [h, hc]
    rw [joinNonEmpty, hf, if_neg hc]
    rfl

lemma joinNonEmpty_empty_head (c : String) : joinNonEmpty ["", c] = c := by
  by_cases hc : c = ""
  · subst hc; rfl
  · have hf : List.filter (fun s => s != "") ["", c] = [c] := by simp [hc]
    rw [joinNonEmpty, hf]
    rfl

lemma joinNonEmpty_snd_empty (d : String) : joinNonEmpty [d, ""] = d := by
  by_cases hd : d = ""
  · subst hd; rfl
  · have hf : List.filter (fun s => s != "") [d, ""] = [d] := by simp [hd]
    rw [joinNonEmpty, hf]
    rfl

/-- On a pair list whose approaches all carry non-empty descriptions, the
builder loop with a never-failing provider yields exactly the records and
texts the claim predicts, and raises nothing. -/
lemma processApproachList_ok (f : String → List Int) (qid ty : String) :
    ∀ pairs : List (Option Approach × Option Code), pairsDescsOk pairs = true →
      processApproachList (okEnc f) qid ty pairs =
        ⟨pairs.filterMap (claimRecord f qid ty), pairs.filterMap claimTextOfPair,
         none⟩ := by
  intro pairs hok
  induction pairs with
  | nil => rfl
  | cons p rest ih =>
    obtain ⟨a, c⟩ := p
    simp only [pairsDescsOk, List.all_cons, Bool.and_eq_true] at hok
    have htail := ih (by simpa [pairsDescsOk] using hok.2)
    cases a with
    | none =>
      simpa [processApproachList, claimRecord, claimTextOfPair] using htail
    | some ap =>
      have hd : hasNonemptyDesc ap = true := hok.1
      unfold hasNonemptyDesc at hd
      cases hdesc : ap.description with
      | none => rw [hdesc] at hd; cases hd
      | some d =>
        rw [hdesc] at hd
        have hdne : d ≠ "" := by simpa using hd
        have htext : joinNonEmpty (d :: (match c with
            | some cd => [cd.content]
            | none => [])) = claimText ap c := by
          cases c with
          | none => simp [claimText, hdesc, joinNonEmpty_single hdne]
          | some cd =>
            simp [claimText, hdesc, joinNonEmpty_pair hdne]
        simp [processApproachList, hdesc, okEnc, htail, htext, claimRecord,
          claimTextOfPair, claimText, hdesc]

lemma filterMap_ite (p : α → Bool) (g : α → β) (l : List α) :
    (l.filterMap fun a => if p a then some (g a) else none) =
      (l.filter p).map g := by
  induction l with
  | nil => rfl
  | cons a t ih =>
    by_cases hpa : p a = true
    · simp [List.filterMap_cons, hpa, ih]
    · simp [List.filterMap_cons, hpa, ih]

lemma scoredList_some (q : List Int) (records : List EmbeddingRecord)
    (ts : List String) :
    scoredList q records (some ts) =
      (records.filter fun ad => ts.contains ad.approach_type).map
        fun ad => ⟨ad, dotProduct q ad.embedding⟩ := by
  unfold scoredList typeAllowed
  exact filterMap_ite _ _ records

lemma scoredList_none_eq (q : List Int) (records : List EmbeddingRecord) :
    scoredList q records none =
      records.map fun ad => ⟨ad, dotProduct q ad.embedding⟩ := by
  induction records with
  | nil => rfl
  | cons a t ih =>
    simp only [scoredList, typeAllowed, List.filterMap_cons] at ih ⊢
    simp only [List.map_cons, ← ih]
    simp

lemma mem_scoredList_sim {q : List Int} {records : List EmbeddingRecord}
    {tf : Option (List String)} {r : ScoredApproach}
    (h : r ∈ scoredList q records tf) :
    r.similarity = dotProduct q r.approach_data.embedding := by
  unfold scoredList at h
  obtain ⟨ad, _, hf⟩ := List.mem_filterMap.mp h
  split at hf
  · cases Option.some.inj hf
    rfl
  · cases hf

lemma mem_scoredList_allowed {q : List Int} {records : List EmbeddingRecord}
    {tf : Option (List String)} {r : ScoredApproach}
    (h : r ∈ scoredList q records tf) :
    typeAllowed tf r.approach_data.approach_type = true := by
  unfold scoredList at h
  obtain ⟨ad, _, hf⟩ := List.mem_filterMap.mp h
  split at hf
  · cases Option.some.inj hf
    assumption
  · cases hf

lemma mem_fetch_mem_scored {q : List Int} {records : List EmbeddingRecord}
    {top_k : Int} {tf : Option (List String)} {r : ScoredApproach}
    (h : r ∈ fetch_related_approaches q records top_k tf) :
    r ∈ scoredList q records tf := by
  unfold fetch_related_approaches pySliceTo at h
  split at h
  · cases h
  · have h2 : r ∈ rankedAll q records tf :=
      (List.take_sublist _ _).subset h
    exact (List.perm_insertionSort simGE _).subset h2

/-- Stability of the modelled sort: restricting the sorted list to any
one similarity value gives back exactly the input-order restriction. -/
lemma insertionSort_filter_sim (s : Int) (l : List ScoredApproach) :
    (List.insertionSort simGE l).filter (fun r => r.similarity == s) =
      l.filter (fun r => r.similarity == s) := by
  have hmemp : ∀ x ∈ l.filter (fun r : ScoredApproach => r.similarity == s),
      x.similarity = s := by
    intro x hx
    simpa using List.of_mem_filter hx
  have hpair : (l.filter (fun r : ScoredApproach => r.similarity == s)).Pairwise
      simGE := by
    refine List.pairwise_of_forall_mem_list ?_
    intro a ha b hb
    unfold simGE
    rw [hmemp a ha, hmemp b hb]
  have hsub : List.Sublist (l.filter fun r : ScoredApproach => r.similarity == s)
      (List.insertionSort simGE l) :=
    List.sublist_insertionSort hpair (List.filter_sublist l)
  have hself : (l.filter (fun r : ScoredApproach => r.similarity == s)).filter
      (fun r : ScoredApproach => r.similarity == s) =
        l.filter (fun r : ScoredApproach => r.similarity == s) :=
    List.filter_eq_self.mpr fun a ha => by simpa using hmemp a ha
  have hsub2 : List.Sublist
      (l.filter fun r : ScoredApproach => r.similarity == s)
      ((List.insertionSort simGE l).filter fun r : ScoredApproach =>
        r.similarity == s) := by
    have := hsub.filter (fun r : ScoredApproach => r.similarity == s)
    rwa [hself] at this
  have hperm := (List.perm_insertionSort simGE l).filter
    (fun r : ScoredApproach => r.similarity == s)
  exact (hsub2.eq_of_length hperm.length_eq.symm).symm

/-- On a bundle whose approaches all carry non-empty descriptions, one
bundle pass of the builder yields exactly the records and texts the claim
predicts. -/
lemma processBundle_ok (f : String → List Int) (b : QuestionBundle)
    (hok : bundleDescsOk b = true) :
    processBundle (okEnc f) b =
      ⟨claimRecordsOfBundle f b, claimTextsOfBundle b, none⟩ := by
  unfold bundleDescsOk at hok
  simp only [Bool.and_eq_true] at hok
  unfold processBundle
  rw [processApproachList_ok f b.q.text "approached" _ hok.1.1,
    processApproachList_ok f b.q.text "optimized" _ hok.1.2,
    processApproachList_ok f b.q.text "improved" _ hok.2]
  simp [thenBuild, claimRecordsOfBundle, claimTextsOfBundle]

/-- C1 (amended): over bundles in which every present Approach carries a
non-empty description, the Weighted Embedding Builder produces exactly one
embedding record per present Approach, across all three relationship
categories, in builder order; the record's embedding input text is the
Approach's description joined to its positionally paired Code's content by
a single separator when the Code is present with non-empty content, and
the description alone when the Code is absent or its content is empty. -/
theorem claim_C1_amended (f : String → List Int)
    (questions_data : List QuestionBundle) (code_analysis : String)
    (hok : ∀ b ∈ questions_data, bundleDescsOk b = true) :
    create_weighted_embeddings (okEnc f) questions_data code_analysis =
      ⟨(claimAll f questions_data).1, (claimAll f questions_data).2, none⟩ := by
  induction questions_data with
  | nil => rfl
  | cons b rest ih =>
    have hb := hok b (List.mem_cons_self b rest)
    have hrest := ih fun x hx => hok x (List.mem_cons_of_mem b hx)
    simp [create_weighted_embeddings, processBundle_ok f b hb, hrest,
      thenBuild, claimAll]

/-- C1 as frozen is false on the code: with a paired Code node present but
holding empty content, the built embedding input text is the description
alone, not the description and the content joined by a single separator. -/
theorem claim_C1_counterexample :
    (create_weighted_embeddings (okEnc fun s => [(s.length : Int)])
        [⟨⟨"q"⟩, [], [], [some ⟨some "d"⟩], [some ⟨""⟩], [], [], [], []⟩]
        "ca").texts = ["d"] ∧
      ("d" : String) ≠ "d" ++ " " ++ "" := by
  constructor
  · rfl
  · decide

/-- Witness for claim_C1_amended at a concrete bundle list. -/
theorem claim_C1_witness :
    create_weighted_embeddings (okEnc fun s => [(s.length : Int)])
        [⟨⟨"q1"⟩, [], [], [some ⟨some "a"⟩], [none],
          [some ⟨some "b"⟩], [some ⟨"c"⟩], [], []⟩] "ca" =
      ⟨(claimAll (fun s => [(s.length : Int)])
          [⟨⟨"q1"⟩, [], [], [some ⟨some "a"⟩], [none],
            [some ⟨some "b"⟩], [some ⟨"c"⟩], [], []⟩]).1,
       (claimAll (fun s => [(s.length : Int)])
          [⟨⟨"q1"⟩, [], [], [some ⟨some "a"⟩], [none],
            [some ⟨some "b"⟩], [some ⟨"c"⟩], [], []⟩]).2, none⟩ :=
  claim_C1_amended (fun s => [(s.length : Int)]) _ "ca" (by decide)

/-- C2 (amended): an Approach entry whose description is the empty string
is not excluded: it yields exactly one embedding record, whose embedding
input text drops the empty description (it is the paired Code's content
when the Code node is present, and the empty string otherwise); an
Approach entry whose description property is missing makes the builder
raise a KeyError at that entry instead of excluding it. -/
theorem claim_C2_amended (f : String → List Int) (qid ty : String)
    (ap : Approach) (code : Option Code)
    (rest : List (Option Approach × Option Code)) :
    (ap.description = some "" →
      processApproachList (okEnc f) qid ty ((some ap, code) :: rest) =
        ⟨⟨qid, ty, f (emptyDescText code), ap, code⟩ ::
            (processApproachList (okEnc f) qid ty rest).records,
         emptyDescText code ::
            (processApproachList (okEnc f) qid ty rest).texts,
         (processApproachList (okEnc f) qid ty rest).err⟩) ∧
    (ap.description = none →
      processApproachList (okEnc f) qid ty ((some ap, code) :: rest) =
        ⟨[], [], some PyError.keyError⟩) := by
  constructor
  · intro hdesc
    have htext : joinNonEmpty ("" :: (match code with
        | some cd => [cd.content]
        | none => [])) = emptyDescText code := by
      cases code with
      | none => rfl
      | some cd => simpa [emptyDescText] using joinNonEmpty_empty_head cd.content
    simp [processApproachList, hdesc, okEnc, htext]
  · intro hdesc
    simp [processApproachList, hdesc]

/-- C2 as frozen is false on the code: an Approach entry with an empty
description string still yields an embedding record (the built record list
is not empty). -/
theorem claim_C2_counterexample :
    create_weighted_embeddings (okEnc fun s => [(s.length : Int)])
        [⟨⟨"q"⟩, [], [], [some ⟨some ""⟩], [none], [], [], [], []⟩] "ca" =
      ⟨[⟨"q", "approached", [0], ⟨some ""⟩, none⟩], [""], none⟩ ∧
      ([⟨"q", "approached", [0], ⟨some ""⟩, none⟩] : List EmbeddingRecord) ≠
        [] := by
  constructor
  · rfl
  · decide

/-- Witness for claim_C2_amended at concrete entries, one per conjunct. -/
theorem claim_C2_witness :
    (processApproachList (okEnc fun s => [(s.length : Int)]) "q" "approached"
        [(some ⟨some ""⟩, some ⟨"body"⟩)] =
      ⟨[⟨"q", "approached", [4], ⟨some ""⟩, some ⟨"body"⟩⟩], ["body"],
       none⟩) ∧
    (processApproachList (okEnc fun s => [(s.length : Int)]) "q" "approached"
        [(some ⟨none⟩, none)] = ⟨[], [], some PyError.keyError⟩) := by
  constructor
  · have h := (claim_C2_amended (fun s => [(s.length : Int)]) "q" "approached"
      ⟨some ""⟩ (some ⟨"body"⟩) []).1 rfl
    simpa [processApproachList, emptyDescText] using h
  · exact (claim_C2_amended (fun s => [(s.length : Int)]) "q" "approached"
      ⟨none⟩ none []).2 rfl

/-- C10: an Approach paired with a Code node whose content is the empty
string gets the description alone as its embedding input text, with no
trailing separator, while the empty Code node is still recorded as the
record's code node. -/
theorem claim_C10_empty_code_content (f : String → List Int)
    (qid ty d : String) (ap : Approach)
    (rest : List (Option Approach × Option Code))
    (hdesc : ap.description = some d) :
    processApproachList (okEnc f) qid ty ((some ap, some ⟨""⟩) :: rest) =
      ⟨⟨qid, ty, f d, ap, some ⟨""⟩⟩ ::
          (processApproachList (okEnc f) qid ty rest).records,
       d :: (processApproachList (okEnc f) qid ty rest).texts,
       (processApproachList (okEnc f) qid ty rest).err⟩ := by
  have htext : joinNonEmpty [d, ""] = d := joinNonEmpty_snd_empty d
  simp [processApproachList, hdesc, okEnc, htext]

/-- C3: the ranker's output is ordered by non-increasing similarity; each
record's score is the raw dot product of the query vector and the record's
embedding (no length normalization); the output is a prefix of the fully
sorted list; and the sort is stable: restricted to any single similarity
value, the sorted list keeps exactly the input order established by the
builder. -/
theorem claim_C3_ranking (q : List Int) (records : List EmbeddingRecord)
    (top_k : Int) (tf : Option (List String)) :
    List.Pairwise simGE (fetch_related_approaches q records top_k tf) ∧
    (∀ r ∈ fetch_related_approaches q records top_k tf,
      r.similarity = dotProduct q r.approach_data.embedding) ∧
    (∃ n, fetch_related_approaches q records top_k tf =
      (rankedAll q records tf).take n) ∧
    (∀ s : Int,
      (rankedAll q records tf).filter (fun r => r.similarity == s) =
        (scoredList q records tf).filter (fun r => r.similarity == s)) := by
  refine ⟨?_, ?_, ?_, ?_⟩
  · unfold fetch_related_approaches pySliceTo
    split
    · exact List.Pairwise.nil
    · exact List.Pairwise.sublist (List.take_sublist _ _)
        (List.sorted_insertionSort simGE _)
  · intro r hr
    exact mem_scoredList_sim (mem_fetch_mem_scored hr)
  · unfold fetch_related_approaches pySliceTo
    split
    · exact ⟨0, by simp⟩
    · exact ⟨_, rfl⟩
  · intro s
    exact insertionSort_filter_sim s _

/-- Witness for claim_C3_ranking at a concrete query and record list. -/
theorem claim_C3_witness :
    List.Pairwise simGE (fetch_related_approaches [1]
      [⟨"q", "approached", [2], ⟨some "a"⟩, none⟩] 3 none) ∧
    (⟨⟨"q", "approached", [2], ⟨some "a"⟩, none⟩, 2⟩ : ScoredApproach).similarity =
      dotProduct [1]
        (⟨⟨"q", "approached", [2], ⟨some "a"⟩, none⟩, 2⟩ :
          ScoredApproach).approach_data.embedding :=
  ⟨(claim_C3_ranking [1] [⟨"q", "approached", [2], ⟨some "a"⟩, none⟩] 3
      none).1,
   (claim_C3_ranking [1] [⟨"q", "approached", [2], ⟨some "a"⟩, none⟩] 3
      none).2.1 ⟨⟨"q", "approached", [2], ⟨some "a"⟩, none⟩, 2⟩ (by decide)⟩

/-- C4: for k at least 1 the ranker returns exactly
min(k, number of scored records) results, and on an empty record list it
returns the empty list. -/
theorem claim_C4_truncation (q : List Int) (records : List EmbeddingRecord)
    (top_k : Int) (tf : Option (List String)) (hk : 1 ≤ top_k) :
    (fetch_related_approaches q records top_k tf).length =
      min top_k.toNat (scoredList q records tf).length ∧
    fetch_related_approaches q [] top_k tf = [] := by
  constructor
  · unfold fetch_related_approaches pySliceTo
    split
    · next hemp =>
      have h0 : records = [] := List.isEmpty_iff.mp hemp
      subst h0
      simp [scoredList]
    · rw [if_pos (by omega : (0 : Int) ≤ top_k)]
      unfold rankedAll
      rw [List.length_take, List.length_insertionSort]
  · rfl

/-- Witness for claim_C4_truncation at a concrete call. -/
theorem claim_C4_witness :
    (fetch_related_approaches [1]
        [⟨"q", "approached", [2], ⟨some "a"⟩, none⟩] 5 none).length =
      min (Int.toNat 5)
        (scoredList [1] [⟨"q", "approached", [2], ⟨some "a"⟩, none⟩]
          none).length ∧
    fetch_related_approaches [1] [] 5 none = [] :=
  claim_C4_truncation [1] [⟨"q", "approached", [2], ⟨some "a"⟩, none⟩] 5 none
    (by decide)

/-- C5: with a type filter, every returned result's approach type is a
member of the filter and the result count never exceeds the count of
records passing the filter; with no filter, all records are scored. -/
theorem claim_C5_filtering (q : List Int) (records : List EmbeddingRecord)
    (top_k : Int) (ts : List String) :
    (∀ r ∈ fetch_related_approaches q records top_k (some ts),
      r.approach_data.approach_type ∈ ts) ∧
    (fetch_related_approaches q records top_k (some ts)).length ≤
      (records.filter fun ad => ts.contains ad.approach_type).length ∧
    scoredList q records none =
      records.map fun ad => ⟨ad, dotProduct q ad.embedding⟩ := by
  refine ⟨?_, ?_, scoredList_none_eq q records⟩
  · intro r hr
    have h1 := mem_scoredList_allowed (mem_fetch_mem_scored hr)
    unfold typeAllowed at h1
    simpa using h1
  · unfold fetch_related_approaches
    split
    · simp
    · have hle : (pySliceTo top_k (rankedAll q records (some ts))).length ≤
          (rankedAll q records (some ts)).length := by
        unfold pySliceTo
        exact List.length_take_le' _ _
      have heq : (rankedAll q records (some ts)).length =
          (records.filter fun ad => ts.contains ad.approach_type).length := by
        unfold rankedAll
        rw [List.length_insertionSort, scoredList_some, List.length_map]
      exact heq ▸ hle

/-- Witness for claim_C5_filtering at a concrete filtered call. -/
theorem claim_C5_witness :
    (⟨⟨"q", "optimized", [3], ⟨some "b"⟩, none⟩, 3⟩ :
        ScoredApproach).approach_data.approach_type ∈ ["optimized"] ∧
    (fetch_related_approaches [1]
        [⟨"q", "approached", [2], ⟨some "a"⟩, none⟩,
         ⟨"q", "optimized", [3], ⟨some "b"⟩, none⟩] 5
        (some ["optimized"])).length ≤
      (([⟨"q", "approached", [2], ⟨some "a"⟩, none⟩,
         ⟨"q", "optimized", [3], ⟨some "b"⟩, none⟩] :
          List EmbeddingRecord).filter
          fun ad => ["optimized"].contains ad.approach_type).length :=
  ⟨(claim_C5_filtering [1]
      [⟨"q", "approached", [2], ⟨some "a"⟩, none⟩,
       ⟨"q", "optimized", [3], ⟨some "b"⟩, none⟩] 5 ["optimized"]).1
      ⟨⟨"q", "optimized", [3], ⟨some "b"⟩, none⟩, 3⟩ (by decide),
   (claim_C5_filtering [1]
      [⟨"q", "approached", [2], ⟨some "a"⟩, none⟩,
       ⟨"q", "optimized", [3], ⟨some "b"⟩, none⟩] 5 ["optimized"]).2.1⟩

/-- C9: on a non-empty record list, top_k = 0 returns the empty list, and
a negative top_k raises no error and returns the sorted scored list with
its last |top_k| entries removed. -/
theorem claim_C9_nonpositive_k (q : List Int) (records : List EmbeddingRecord)
    (tf : Option (List String)) (hne : records ≠ []) :
    fetch_related_approaches q records 0 tf = [] ∧
    (∀ top_k : Int, top_k < 0 →
      fetch_related_approaches q records top_k tf =
        (rankedAll q records tf).take
          ((rankedAll q records tf).length - (-top_k).toNat)) := by
  have hemp : records.isEmpty = false := by
    cases records with
    | nil => exact absurd rfl hne
    | cons a t => rfl
  constructor
  · unfold fetch_related_approaches pySliceTo
    rw [hemp]
    simp
  · intro top_k hk
    unfold fetch_related_approaches pySliceTo
    rw [hemp]
    simp only [Bool.false_eq_true, if_false]
    rw [if_neg (by omega : ¬ (0 : Int) ≤ top_k)]
    congr 1
    omega

/-- Witness for claim_C9_nonpositive_k at a concrete record list. -/
theorem claim_C9_witness :
    fetch_related_approaches [1]
        [⟨"q", "approached", [2], ⟨some "a"⟩, none⟩,
         ⟨"q", "optimized", [3], ⟨some "b"⟩, none⟩] 0 none = [] ∧
    fetch_related_approaches [1]
        [⟨"q", "approached", [2], ⟨some "a"⟩, none⟩,
         ⟨"q", "optimized", [3], ⟨some "b"⟩, none⟩] (-1) none =
      (rankedAll [1]
        [⟨"q", "approached", [2], ⟨some "a"⟩, none⟩,
         ⟨"q", "optimized", [3], ⟨some "b"⟩, none⟩] none).take
        ((rankedAll [1]
          [⟨"q", "approached", [2], ⟨some "a"⟩, none⟩,
           ⟨"q", "optimized", [3], ⟨some "b"⟩, none⟩] none).length -
          (-(-1 : Int)).toNat) :=
  ⟨(claim_C9_nonpositive_k [1]
      [⟨"q", "approached", [2], ⟨some "a"⟩, none⟩,
       ⟨"q", "optimized", [3], ⟨some "b"⟩, none⟩] none (by decide)).1,
   (claim_C9_nonpositive_k [1]
      [⟨"q", "approached", [2], ⟨some "a"⟩, none⟩,
       ⟨"q", "optimized", [3], ⟨some "b"⟩, none⟩] none (by decide)).2
      (-1) (by decide)⟩

/-- Witness for claim_C10_empty_code_content at a concrete entry. -/
theorem claim_C10_witness :
    processApproachList (okEnc fun s => [(s.length : Int)]) "q" "improved"
        [(some ⟨some "idea"⟩, some ⟨""⟩)] =
      ⟨[⟨"q", "improved", [4], ⟨some "idea"⟩, some ⟨""⟩⟩], ["idea"],
       none⟩ := by
  have h := claim_C10_empty_code_content (fun s => [(s.length : Int)])
    "q" "improved" "idea" ⟨some "idea"⟩ [] rfl
  simpa [processApproachList] using h

/-- C6: when the graph fetch returns no question bundles, the facade
returns the empty result list at once and the embedding provider is never
called (the call log is empty), in particular not for the query text. -/
theorem claim_C6_empty_fetch (enc : Encoder)
    (fetch : List String → Except PyError (List QuestionBundle))
    (query_text code_analysis : String) (subtopics : List String) (k : Int)
    (h : fetch subtopics = Except.ok []) :
    find_similar_approaches enc fetch query_text code_analysis subtopics k =
      (Except.ok [], []) := by
  unfold find_similar_approaches
  rw [h]
  rfl

/-- Witness for claim_C6_empty_fetch at a concrete empty fetch. -/
theorem claim_C6_witness :
    find_similar_approaches (okEnc fun s => [(s.length : Int)])
        (fun _ => Except.ok []) "query" "ca" ["NonexistentTag"] 5 =
      (Except.ok [], []) :=
  claim_C6_empty_fetch (okEnc fun s => [(s.length : Int)])
    (fun _ => Except.ok []) "query" "ca" ["NonexistentTag"] 5 rfl

/-- C7: the builder is purely derivational: the state it leaves in
`approach_embeddings` does not depend on the state found there (the field
is reset before the rebuild), so it never caches across invocations and no
record built for one query can survive into a later query's working set;
the new state is a pure function of the current bundles alone (the bundle
inputs, being values of a pure function here, are never mutated). -/
theorem claim_C7_fresh_rebuild (enc : Encoder)
    (s1 s2 : CompetitiveProgrammingSearch)
    (questions_data : List QuestionBundle) (code_analysis : String) :
    create_weighted_embeddings_method enc s1 questions_data code_analysis =
      create_weighted_embeddings_method enc s2 questions_data code_analysis ∧
    (create_weighted_embeddings_method enc s1 questions_data
        code_analysis).1.approach_embeddings =
      (create_weighted_embeddings enc questions_data code_analysis).records :=
  ⟨rfl, rfl⟩

/-- C8: every failure surfaces unchanged to the caller of the facade: a
fetch failure propagates as-is with no provider call made; a builder
(KeyError or provider) failure propagates as-is; a failure while embedding
the query text propagates as-is.  No branch converts a failure into a
partial result. -/
theorem claim_C8_propagation (enc : Encoder)
    (fetch : List String → Except PyError (List QuestionBundle))
    (query_text code_analysis : String) (subtopics : List String) (k : Int) :
    (∀ e, fetch subtopics = Except.error e →
      find_similar_approaches enc fetch query_text code_analysis subtopics
        k = (Except.error e, [])) ∧
    (∀ e questions_data, fetch subtopics = Except.ok questions_data →
      questions_data ≠ [] →
      (create_weighted_embeddings enc questions_data code_analysis).err =
        some e →
      (find_similar_approaches enc fetch query_text code_analysis subtopics
        k).1 = Except.error e) ∧
    (∀ e questions_data, fetch subtopics = Except.ok questions_data →
      questions_data ≠ [] →
      (create_weighted_embeddings enc questions_data code_analysis).err =
        none →
      enc query_text = Except.error e →
      (find_similar_approaches enc fetch query_text code_analysis subtopics
        k).1 = Except.error e) := by
  refine ⟨?_, ?_, ?_⟩
  · intro e he
    unfold find_similar_approaches
    rw [he]
  · intro e questions_data hqd hne herr
    have hemp : questions_data.isEmpty = false := by
      cases questions_data with
      | nil => exact absurd rfl hne
      | cons a t => rfl
    unfold find_similar_approaches
    rw [hqd]
    simp [hemp, herr]
  · intro e questions_data hqd hne herr henc
    have hemp : questions_data.isEmpty = false := by
      cases questions_data with
      | nil => exact absurd rfl hne
      | cons a t => rfl
    unfold find_similar_approaches
    rw [hqd]
    simp [hemp, herr, henc]

/-- Witness for claim_C8_propagation: one concrete call per failure kind. -/
theorem claim_C8_witness :
    (find_similar_approaches (okEnc fun s => [(s.length : Int)])
        (fun _ => Except.error PyError.storeUnavailable) "query" "ca" ["t"]
        3 = (Except.error PyError.storeUnavailable, [])) ∧
    ((find_similar_approaches (okEnc fun s => [(s.length : Int)])
        (fun _ => Except.ok
          [⟨⟨"q"⟩, [], [], [some ⟨none⟩], [none], [], [], [], []⟩])
        "query" "ca" ["t"] 3).1 = Except.error PyError.keyError) ∧
    ((find_similar_approaches (fun _ => Except.error PyError.embeddingFailure)
        (fun _ => Except.ok
          [⟨⟨"q"⟩, [], [], [], [], [], [], [], []⟩])
        "query" "ca" ["t"] 3).1 = Except.error PyError.embeddingFailure) :=
  ⟨(claim_C8_propagation (okEnc fun s => [(s.length : Int)])
      (fun _ => Except.error PyError.storeUnavailable) "query" "ca" ["t"]
      3).1 PyError.storeUnavailable rfl,
   (claim_C8_propagation (okEnc fun s => [(s.length : Int)])
      (fun _ => Except.ok
        [⟨⟨"q"⟩, [], [], [some ⟨none⟩], [none], [], [], [], []⟩])
      "query" "ca" ["t"] 3).2.1 PyError.keyError
      [⟨⟨"q"⟩, [], [], [some ⟨none⟩], [none], [], [], [], []⟩] rfl
      (by decide) rfl,
   (claim_C8_propagation (fun _ => Except.error PyError.embeddingFailure)
      (fun _ => Except.ok [⟨⟨"q"⟩, [], [], [], [], [], [], [], []⟩])
      "query" "ca" ["t"] 3).2.2 PyError.embeddingFailure
      [⟨⟨"q"⟩, [], [], [], [], [], [], [], []⟩] rfl (by decide) rfl rfl⟩
